import Mathlib

/-!
Verification development for the news-clustering-streamlit-app repository.

The repository has three Python source files:
* `src/spiders/news_spider.py` — a Scrapy spider (`NewsSpider`) that crawls a
  fixed table of newspaper section pages, discovers links on each page
  (`parse`), fetches each discovered link and extracts an article via the
  external NewsPlease library (`parse_article`), and writes rows to a CSV feed.
* `src/clustering.py` — `preprocess_text` (lowercase, strip punctuation,
  tokenize, drop stopwords, lemmatize) and `cluster_articles` (groups rows by
  their pre-existing `section` column).
* `src/app.py` — a Streamlit dashboard (presentation layer, out of scope).

This file shallowly embeds the functions the claims are about.  External
library behaviour (NewsPlease extraction, the NLTK tokenizer/lemmatizer) is
passed in as explicit function arguments; framework components that the spec
specifies but that live inside Scrapy (the URL frontier with its seen-set, the
CSV feed exporter) are modelled from the spec and marked as such in their doc
comments.
-/

namespace NewsApp

/-! ### Character-level string helpers

Executable helpers over `List Char`, used so that all definitions reduce by
kernel computation (`decide`/`rfl`) on concrete inputs. -/

/-- `containsSub pat s` is true when `pat` occurs as a contiguous substring of
`s`; this is Python's `pat in s` on strings, as used in `parse`'s
`'http' in link` test. -/
def containsSub (pat : List Char) : List Char → Bool
  | [] => pat.isEmpty
  | c :: tail => pat.isPrefixOf (c :: tail) || containsSub pat tail

/-- Python's `'http' in link` substring test from `NewsSpider.parse`. -/
def containsHttp (link : String) : Bool :=
  containsSub "http".toList link.toList

/-! ### `NewsSpider.parse` — link discovery

Source (`src/spiders/news_spider.py`, lines 53–58):
```python
def parse(self, response):
    links = response.css('a::attr(href)').getall()
    for link in set(links):
        if link and 'http' in link:
            yield response.follow(link, callback=self.parse_article,
                                  meta=response.meta)
```
The page's raw `href` values are the input list `links`.  Python's
`set(links)` deduplicates within the page (iteration order is unspecified, so
we state properties up to membership); the guard keeps a link iff it is
non-empty (`if link` — truthiness) and contains the substring `'http'`
(`'http' in link`).  For each kept link the spider yields
`response.follow(link, ...)`, i.e. a request for `link` resolved against the
page's own URL by the framework. -/

/-- The set of raw links of a page that `NewsSpider.parse` follows:
deduplicated within the page, keeping exactly the non-empty links that contain
the substring `"http"`. -/
def parse_links (links : List String) : List String :=
  links.dedup.filter (fun link => !(link == "") && containsHttp link)

/-- A request yielded by `response.follow(link, ...)`: the framework resolves
`link` against the page URL `base`.  Kept symbolic: the resolution itself is
Scrapy's, not the repository's. -/
structure FollowRequest where
  base : String
  link : String
deriving DecidableEq, Repr

/-- The requests yielded by `NewsSpider.parse` for a page at `pageUrl` whose
markup contains the href values `links`. -/
def parse (pageUrl : String) (links : List String) : List FollowRequest :=
  (parse_links links).map (fun link => ⟨pageUrl, link⟩)

/-! ### `NewsSpider.parse_article` — article extraction

Source (`src/spiders/news_spider.py`, lines 60–71):
```python
def parse_article(self, response):
    article = NewsPlease.from_url(response.url)
    if article:
        yield {
            'title': article.title,
            'text': article.maintext,
            'url': response.url,
            'date': article.date_publish,
            'newspaper': response.meta['newspaper'],
            'section': response.meta['section'],
            'authors': article.authors
        }
```
`NewsPlease.from_url` is an external library call; we model its result as an
`Option NewsArticle` argument (`none` for a falsy result).  A `NewsArticle`'s
`title`, `maintext` and `date_publish` attributes may each be Python `None`,
hence `Option String`; `authors` is a list of strings. -/

/-- The fields of a NewsPlease article object that `parse_article` reads.
Any of `title`, `maintext`, `date_publish` may be `None` in the library. -/
structure NewsArticle where
  title : Option String
  maintext : Option String
  date_publish : Option String
  authors : List String
deriving DecidableEq, Repr

/-- The per-request provenance metadata carried from `start_requests` through
`response.meta`. -/
structure Meta where
  newspaper : String
  «section» : String
deriving DecidableEq, Repr

/-- One item yielded by `parse_article`: a row for the CSV feed with exactly
the seven keys of the source's dict literal, in order. -/
structure Row where
  title : Option String
  text : Option String
  url : String
  date : Option String
  newspaper : String
  «section» : String
  authors : List String
deriving DecidableEq, Repr

/-- `NewsSpider.parse_article`: given the NewsPlease result for the response's
URL (`none` when the library returns a falsy value), yields one complete row,
or nothing. -/
def parse_article (article : Option NewsArticle) (url : String) (meta : Meta) :
    Option Row :=
  match article with
  | none => none
  | some a =>
    some { title := a.title, text := a.maintext, url := url,
           date := a.date_publish, newspaper := meta.newspaper,
           «section» := meta.«section», authors := a.authors }

/-! ### The Frontier (URL deduplication)

`Modelled from the spec:` the spider relies on Scrapy's scheduler/dupefilter
for URL deduplication, which is framework code absent from `src/`.  The spec
(§4.1 Frontier, §3 SeenSet) specifies it: `enqueue(candidate) -> bool` returns
true and admits the candidate iff its normalized URL is not already in the
SeenSet; otherwise it returns false and the candidate is discarded without
error.  Normalization is "lowercase scheme+host, strip fragment, collapse
trailing slash"; empty or malformed URLs (missing scheme, `javascript:` /
`mailto:` pseudo-links) are rejected at enqueue time. -/

/-- Strip a URL's fragment: everything from the first `#` on. -/
def stripFragment (l : List Char) : List Char :=
  l.takeWhile (fun c => c ≠ '#')

/-- Collapse a trailing slash: `http://x.com/a/` and `http://x.com/a`
normalize identically. -/
def collapseTrailingSlash (l : List Char) : List Char :=
  if l.getLast? = some '/' then l.dropLast else l

/-- Lowercase the characters after `"//"` up to the next `/` — the host part
of `scheme://host/path`. -/
def lowerHost : List Char → List Char
  | [] => []
  | c :: cs => if c = '/' then c :: cs else c.toLower :: lowerHost cs

/-- Lowercase the scheme (up to the first `:`); when the `:` is followed by
`//`, also lowercase the host that follows.  Path, query and the rest are left
untouched. -/
def lowerSchemeHost : List Char → List Char
  | [] => []
  | c :: cs =>
    if c = ':' then
      c :: (match cs with
            | '/' :: '/' :: rest => '/' :: '/' :: lowerHost rest
            | other => other)
    else c.toLower :: lowerSchemeHost cs

/-- `Modelled from the spec:` URL normalization for the SeenSet — lowercase
scheme+host, strip fragment, collapse trailing slash, so that
`http://x.com/a` and `http://x.com/a#top` dedup identically. -/
def normalizeUrl (u : String) : String :=
  String.mk (lowerSchemeHost (collapseTrailingSlash (stripFragment u.toList)))

/-- A discovered link awaiting fetch-and-extract, tagged with the provenance
of the seed page it was found on (spec §3 CrawlCandidate). -/
structure CrawlCandidate where
  url : String
  newspaper : String
  «section» : String
  discoveredFrom : String
deriving DecidableEq, Repr

/-- `Modelled from the spec:` a URL is well-formed for the frontier iff it has
an absolute http(s) scheme; empty strings and `javascript:`/`mailto:`
pseudo-links fail this. -/
def hasHttpScheme (u : String) : Bool :=
  "http://".toList.isPrefixOf u.toList || "https://".toList.isPrefixOf u.toList

/-- `Modelled from the spec:` the Frontier's state — the SeenSet of normalized
URLs admitted so far, and the FIFO queue of admitted candidates. -/
structure Frontier where
  seen : List String
  queue : List CrawlCandidate
deriving DecidableEq, Repr

/-- `Modelled from the spec:` `enqueue(candidate) -> bool` — rejects malformed
URLs, returns false and leaves the frontier unchanged when the normalized URL
is already in the SeenSet, and otherwise admits the candidate, recording its
normalized URL. -/
def enqueue (f : Frontier) (c : CrawlCandidate) : Bool × Frontier :=
  if ¬ hasHttpScheme c.url then (false, f)
  else if normalizeUrl c.url ∈ f.seen then (false, f)
  else (true, { seen := normalizeUrl c.url :: f.seen, queue := f.queue ++ [c] })

/-- The subsequence of a candidate stream that the frontier admits, threading
the frontier state left to right. -/
def admitted (f : Frontier) : List CrawlCandidate → List CrawlCandidate
  | [] => []
  | c :: cs =>
    if (enqueue f c).1 then c :: admitted (enqueue f c).2 cs
    else admitted (enqueue f c).2 cs

/-- A single crawl run's output: the candidates the frontier admits are each
fetched once, `parse_article` runs on the NewsPlease result for the
candidate's URL (the external extraction is the function `extract`), and the
successful rows are collected.  The frontier starts empty: the SeenSet is
cleared on each new run. -/
def runOutput (extract : String → Option NewsArticle)
    (cands : List CrawlCandidate) : List Row :=
  (admitted ⟨[], []⟩ cands).filterMap
    (fun c => parse_article (extract c.url) c.url ⟨c.newspaper, c.«section»⟩)

/-! ### The CSV feed

Source (`src/spiders/news_spider.py`, lines 12–18): `custom_settings` selects
Scrapy's CSV feed exporter (`FEED_FORMAT: 'csv'`, `FEED_URI: 'news.csv'`).
The exporter itself is framework code, modelled from the spec (§6 Output
format): a tabular file with a fixed column header, one row per record,
`authors` serialized as a delimited list within its cell. -/

/-- The spider's relevant `custom_settings` entries, from the source. -/
def custom_settings_DOWNLOAD_DELAY : Nat := 2

/-- `CONCURRENT_REQUESTS_PER_DOMAIN` from the source's `custom_settings`. -/
def custom_settings_CONCURRENT_REQUESTS_PER_DOMAIN : Nat := 1

/-- The column names of a yielded item, in the order of the dict literal in
`parse_article` (Python dicts preserve insertion order, and the CSV exporter
takes its header from the item's keys). -/
def rowFields : List String :=
  ["title", "text", "url", "date", "newspaper", "section", "authors"]

/-- The header the spec requires of the output file, from the spec's words
(§6): `title, text, url, date, newspaper, section, authors`. -/
def specHeader : List String :=
  ["title", "text", "url", "date", "newspaper", "section", "authors"]

/-- `Modelled from the spec:` serialization of one row into CSV cells, in
`rowFields` order; a Python `None` becomes an empty cell and the `authors`
list is serialized as a comma-delimited list within its cell. -/
def serializeRow (r : Row) : List String :=
  [r.title.getD "", r.text.getD "", r.url, r.date.getD "",
   r.newspaper, r.«section», ",".intercalate r.authors]

/-- `Modelled from the spec:` the CSV feed written for a run — the fixed
header followed by one serialized row per record. -/
def csvFile (rows : List Row) : List (List String) :=
  rowFields :: rows.map serializeRow

/-! ### `clustering.py` — `preprocess_text` and `cluster_articles`

Source (`src/clustering.py`, lines 12–33 and 36–53).  `nltk.word_tokenize`,
the stopword list and `WordNetLemmatizer().lemmatize` are external library
pieces, passed in as arguments. -/

/-- A pandas cell of the `text` column: a string, or a non-string value (a
missing cell read as NaN, or a numeric value). -/
inductive Cell where
  | ofString (s : String)
  | nan
  | ofInt (n : Int)
deriving DecidableEq, Repr

/-- `Cell.isStr` mirrors Python's `isinstance(text, str)`. -/
def Cell.isStr : Cell → Bool
  | .ofString _ => true
  | _ => false

/-- Python's `string.punctuation`. -/
def punctuation : List Char :=
  "!\"#$%&'()*+,-./:;<=>?@[\\]^_`\x7b|\x7d~".toList

/-- `text.translate(str.maketrans('', '', string.punctuation))`: delete every
punctuation character. -/
def removePunctuation (s : String) : String :=
  String.mk (s.toList.filter (fun c => c ∉ punctuation))

/-- Python's `text.lower()`, character by character. -/
def lowerString (s : String) : String :=
  String.mk (s.toList.map Char.toLower)

/-- `preprocess_text` from `src/clustering.py`: returns `""` for any
non-string input; for a string, lowercases it, removes punctuation, tokenizes
(`word_tokenize`, external), removes stopwords, lemmatizes each token
(external), and joins the tokens with single spaces. -/
def preprocess_text (word_tokenize : String → List String)
    (stop_words : List String) (lemmatize : String → String)
    (text : Cell) : String :=
  match text with
  | .ofString s =>
    let t := removePunctuation (lowerString s)
    let tokens := word_tokenize t
    let tokens := tokens.filter (fun word => word ∉ stop_words)
    let tokens := tokens.map lemmatize
    " ".intercalate tokens
  | _ => ""

/-- One row of the input CSV as `cluster_articles` reads it: the `text` cell
and the `section` label. -/
structure InRow where
  text : Cell
  «section» : String
deriving DecidableEq, Repr

/-- One row of `cluster_articles`' output frame: the original columns plus
`processed_text`, the numeric `cluster` code and the `cluster_name`. -/
structure ClusteredRow where
  text : Cell
  «section» : String
  processed_text : String
  cluster : Nat
  cluster_name : String
deriving DecidableEq, Repr

/-- Lexicographic comparison of character lists by code point, Python's
string ordering. -/
def charListLe : List Char → List Char → Bool
  | [], _ => true
  | _ :: _, [] => false
  | c :: cs, d :: ds =>
    if c.toNat < d.toNat then true
    else if d.toNat < c.toNat then false
    else charListLe cs ds

/-- Lexicographic string comparison by code point. -/
def strLe (a b : String) : Bool :=
  charListLe a.toList b.toList

/-- Insert a string into a lexicographically sorted list of strings. -/
def insertSorted (s : String) : List String → List String
  | [] => [s]
  | t :: ts => if strLe s t then s :: t :: ts else t :: insertSorted s ts

/-- Lexicographic insertion sort of a list of strings. -/
def sortStrings : List String → List String
  | [] => []
  | s :: ss => insertSorted s (sortStrings ss)

/-- Pandas `.astype('category')`: the categories of a string column are its
distinct values in sorted order. -/
def categoriesOf (sections : List String) : List String :=
  sortStrings sections.dedup

/-- Pandas `.cat.codes` for one value: its index among the sorted distinct
categories. -/
def catCode (cats : List String) (s : String) : Nat :=
  cats.indexOf s

/-- `cluster_articles` from `src/clustering.py` (lines 36–53): adds
`processed_text` via `preprocess_text`, sets `cluster` to the categorical
code of `section`, and sets `cluster_name` to `section` itself.  Returns the
augmented rows together with the distinct section names
(`df['section'].unique()`). -/
def cluster_articles (word_tokenize : String → List String)
    (stop_words : List String) (lemmatize : String → String)
    (rows : List InRow) : List ClusteredRow × List String :=
  let cats := categoriesOf (rows.map (fun r => r.«section»))
  (rows.map (fun r =>
    { text := r.text, «section» := r.«section»,
      processed_text := preprocess_text word_tokenize stop_words lemmatize r.text,
      cluster := catCode cats r.«section»,
      cluster_name := r.«section» }),
   (rows.map (fun r => r.«section»)).dedup)

/-! ## Helper lemmas -/

/-- `enqueue` as a single case split: admit iff well-formed and unseen. -/
lemma enqueue_eq (f : Frontier) (c : CrawlCandidate) :
    enqueue f c =
      if hasHttpScheme c.url = true ∧ normalizeUrl c.url ∉ f.seen then
        (true, ⟨normalizeUrl c.url :: f.seen, f.queue ++ [c]⟩)
      else (false, f) := by
  unfold enqueue
  split_ifs with h1 h2 h3 <;> simp_all

lemma enqueue_fst_true_iff (f : Frontier) (c : CrawlCandidate) :
    (enqueue f c).1 = true ↔
      hasHttpScheme c.url = true ∧ normalizeUrl c.url ∉ f.seen := by
  rw [enqueue_eq]; split_ifs with h <;> simp_all

lemma enqueue_snd_of_false (f : Frontier) (c : CrawlCandidate)
    (h : (enqueue f c).1 = false) : (enqueue f c).2 = f := by
  rw [enqueue_eq] at *
  split_ifs at * <;> simp_all

lemma enqueue_snd_of_true (f : Frontier) (c : CrawlCandidate)
    (h : (enqueue f c).1 = true) :
    (enqueue f c).2 = ⟨normalizeUrl c.url :: f.seen, f.queue ++ [c]⟩ := by
  rw [enqueue_eq] at *
  split_ifs at * <;> simp_all

lemma enqueue_seen_mono (f : Frontier) (c : CrawlCandidate) :
    f.seen ⊆ (enqueue f c).2.seen := by
  rw [enqueue_eq]
  split_ifs <;> simp [List.subset_cons_of_subset, List.Subset.refl]

/-- The frontier admits only candidates whose normalized URL it has not seen,
and never admits two candidates with the same normalized URL. -/
lemma admitted_nodup_fresh (cands : List CrawlCandidate) (f : Frontier) :
    ((admitted f cands).map (fun c => normalizeUrl c.url)).Nodup ∧
    ∀ c ∈ admitted f cands, normalizeUrl c.url ∉ f.seen := by
  induction cands generalizing f with
  | nil => simp [admitted]
  | cons c cs ih =>
    by_cases h : (enqueue f c).1 = true
    · have hc := (enqueue_fst_true_iff f c).1 h
      have hseen := enqueue_snd_of_true f c h
      constructor
      · simp only [admitted, h, if_true, List.map_cons, List.nodup_cons]
        refine ⟨?_, (ih _).1⟩
        intro hmem
        rcases List.mem_map.1 hmem with ⟨d, hd, hurl⟩
        have hfresh := (ih ((enqueue f c).2)).2 d hd
        rw [hseen] at hfresh
        exact hfresh (hurl ▸ List.mem_cons_self _ _)
      · intro d hd
        simp only [admitted, h, if_true, List.mem_cons] at hd
        rcases hd with rfl | hd
        · exact hc.2
        · have hfresh := (ih ((enqueue f c).2)).2 d hd
          rw [hseen] at hfresh
          exact fun hmem => hfresh (List.mem_cons_of_mem _ hmem)
    · have h' : (enqueue f c).1 = false := by
        cases hv : (enqueue f c).1 <;> simp_all
      have hf := enqueue_snd_of_false f c h'
      simp only [admitted, h, if_false]
      rw [hf]
      exact ih f

/-- The URLs of the admitted candidates are pairwise distinct. -/
lemma admitted_map_url_nodup (cands : List CrawlCandidate) (f : Frontier) :
    ((admitted f cands).map (fun c => c.url)).Nodup := by
  have h := (admitted_nodup_fresh cands f).1
  apply List.Nodup.of_map normalizeUrl
  simpa [List.map_map, Function.comp] using h

lemma parse_article_some_url (a : Option NewsArticle) (u : String) (m : Meta)
    (r : Row) (h : parse_article a u m = some r) : r.url = u := by
  cases a with
  | none => simp [parse_article] at h
  | some x =>
    simp only [parse_article] at h
    injection h with h
    rw [← h]

lemma filterMap_url_sublist (g : CrawlCandidate → Option Row)
    (hg : ∀ c r, g c = some r → r.url = c.url) (l : List CrawlCandidate) :
    ((l.filterMap g).map (fun r => r.url)).Sublist (l.map (fun c => c.url)) := by
  induction l with
  | nil => simp
  | cons c cs ih =>
    rcases h : g c with _ | r
    · rw [List.filterMap_cons, h, List.map_cons]
      exact ih.cons _
    · rw [List.filterMap_cons, h, List.map_cons, List.map_cons, hg c r h]
      exact ih.cons₂ _

/-! ## Claim theorems -/

/-- C1: enqueuing a URL a second time admits it at most once — the first
enqueue of a well-formed, not-yet-seen normalized URL returns true and admits
the candidate (appending it to the queue), every enqueue into any later
frontier state of a candidate with the same normalized URL returns false and
leaves the frontier unchanged (the candidate is discarded without error), and
the SeenSet only ever grows, so "later" covers every subsequent state. -/
theorem enqueue_admits_at_most_once (f : Frontier) (c : CrawlCandidate)
    (hs : hasHttpScheme c.url = true) (hnew : normalizeUrl c.url ∉ f.seen) :
    (enqueue f c).1 = true ∧
    (enqueue f c).2.queue = f.queue ++ [c] ∧
    normalizeUrl c.url ∈ (enqueue f c).2.seen ∧
    (∀ (g : Frontier) (c' : CrawlCandidate),
      normalizeUrl c.url ∈ g.seen → normalizeUrl c'.url = normalizeUrl c.url →
      (enqueue g c').1 = false ∧ (enqueue g c').2 = g) ∧
    (∀ (g : Frontier) (d : CrawlCandidate), g.seen ⊆ (enqueue g d).2.seen) := by
  have h1 : (enqueue f c).1 = true := (enqueue_fst_true_iff f c).2 ⟨hs, hnew⟩
  have h2 := enqueue_snd_of_true f c h1
  refine ⟨h1, by rw [h2], by rw [h2]; exact List.mem_cons_self _ _, ?_,
    enqueue_seen_mono⟩
  intro g c' hmem hurl
  have hfst : (enqueue g c').1 = false := by
    cases hv : (enqueue g c').1
    · rfl
    · have := (enqueue_fst_true_iff g c').1 hv
      exact absurd (hurl ▸ hmem) this.2
  exact ⟨hfst, enqueue_snd_of_false g c' hfst⟩

/-- Witness for C1 at a concrete input: an empty frontier admits
`http://x.com/a` and the immediate second enqueue of the same URL is refused
with the frontier unchanged. -/
theorem enqueue_admits_at_most_once_witness :
    (enqueue ⟨[], []⟩ ⟨"http://x.com/a", "X", "biz", "seed"⟩).1 = true ∧
    (enqueue (enqueue ⟨[], []⟩ ⟨"http://x.com/a", "X", "biz", "seed"⟩).2
        ⟨"http://x.com/a", "X", "biz", "seed"⟩).1 = false := by
  have h := enqueue_admits_at_most_once ⟨[], []⟩
    ⟨"http://x.com/a", "X", "biz", "seed"⟩ (by decide) (by simp)
  exact ⟨h.1, (h.2.2.2.1 _ _ h.2.2.1 rfl).1⟩

/-- C2: within a single run (frontier started empty, each admitted candidate
fetched once, `parse_article` run on the NewsPlease result), the `url` values
of the output rows are pairwise distinct. -/
theorem runOutput_urls_nodup (extract : String → Option NewsArticle)
    (cands : List CrawlCandidate) :
    ((runOutput extract cands).map (fun r => r.url)).Nodup := by
  unfold runOutput
  have hsub := filterMap_url_sublist
    (fun c => parse_article (extract c.url) c.url ⟨c.newspaper, c.«section»⟩)
    (fun c r h => parse_article_some_url _ _ _ _ h)
    (admitted ⟨[], []⟩ cands)
  exact List.Nodup.sublist hsub (admitted_map_url_nodup cands ⟨[], []⟩)

/-- Membership characterization of `parse`: a follow request is yielded for a
page iff its base is the page's URL and its raw link occurs among the page's
hrefs, is non-empty, and contains the substring `"http"`. -/
lemma mem_parse (pageUrl : String) (links : List String) (r : FollowRequest) :
    r ∈ parse pageUrl links ↔
      r.base = pageUrl ∧ r.link ∈ links ∧ r.link ≠ "" ∧
      containsHttp r.link = true := by
  unfold parse parse_links
  rw [List.mem_map]
  constructor
  · rintro ⟨l, hl, rfl⟩
    rw [List.mem_filter, List.mem_dedup] at hl
    have hb := hl.2
    rw [Bool.and_eq_true, Bool.not_eq_true', beq_eq_false_iff_ne] at hb
    exact ⟨rfl, hl.1, hb.1, hb.2⟩
  · rintro ⟨hbase, hmem, hne, hhttp⟩
    refine ⟨r.link, ?_, ?_⟩
    · rw [List.mem_filter, List.mem_dedup, Bool.and_eq_true,
        Bool.not_eq_true', beq_eq_false_iff_ne]
      exact ⟨hmem, hne, hhttp⟩
    · cases r
      simp_all

/-- C3 counterexample: the claim says a relative link (missing scheme) is
resolved against the page URL rather than dropped; but for a page whose only
href is the non-empty, non-pseudo relative link `"/sport"`, `parse` yields no
request at all — the guard `'http' in link` drops every link that does not
contain the substring `"http"`, resolution never happens. -/
theorem parse_drops_relative_link :
    "/sport" ≠ "" ∧
    ("javascript:".toList.isPrefixOf "/sport".toList) = false ∧
    ("mailto:".toList.isPrefixOf "/sport".toList) = false ∧
    parse "https://www.bbc.com/news/business" ["/sport"] = [] := by
  refine ⟨by decide, by decide, by decide, ?_⟩
  rfl

/-- C3 (amended): link discovery yields, for each seed page, exactly one
follow request per distinct non-empty href containing the substring `"http"`,
resolved against the page's URL by the framework; empty links and
`javascript:`/`mailto:` pseudo-links (which lack `"http"`) are rejected, but a
relative link is likewise dropped unless it happens to contain `"http"` as a
substring — it is not resolved. -/
theorem parse_follows_iff (pageUrl : String) (links : List String)
    (r : FollowRequest) :
    r ∈ parse pageUrl links ↔
      r.base = pageUrl ∧ r.link ∈ links ∧ r.link ≠ "" ∧
      containsHttp r.link = true :=
  mem_parse pageUrl links r

/-- C4: for a seed page whose markup contains the link sequence
`[A, B, A, C]` (each a candidate-worthy link: non-empty and containing
`"http"`), link discovery produces exactly the candidate set `{A, B, C}` —
duplicates within the page are removed before requests are constructed. -/
theorem parse_dedups_within_page (pageUrl A B C : String)
    (hA : A ≠ "" ∧ containsHttp A = true)
    (hB : B ≠ "" ∧ containsHttp B = true)
    (hC : C ≠ "" ∧ containsHttp C = true) :
    (parse pageUrl [A, B, A, C]).toFinset =
      {⟨pageUrl, A⟩, ⟨pageUrl, B⟩, ⟨pageUrl, C⟩} := by
  ext r
  rw [List.mem_toFinset, mem_parse]
  simp only [Finset.mem_insert, Finset.mem_singleton, List.mem_cons,
    List.not_mem_nil, or_false]
  constructor
  · rintro ⟨hbase, hmem, hne, hhttp⟩
    cases r
    rcases hmem with rfl | rfl | rfl | rfl <;> simp_all
  · rintro (rfl | rfl | rfl) <;> simp_all

/-- Witness for C4 at concrete links: the page
`["http://a.com", "http://b.com", "http://a.com", "http://c.com"]` yields
exactly the three distinct follow requests. -/
theorem parse_dedups_within_page_witness :
    (parse "https://seed.page"
        ["http://a.com", "http://b.com", "http://a.com", "http://c.com"]).toFinset =
      {⟨"https://seed.page", "http://a.com"⟩,
       ⟨"https://seed.page", "http://b.com"⟩,
       ⟨"https://seed.page", "http://c.com"⟩} :=
  parse_dedups_within_page "https://seed.page" _ _ _
    ⟨by decide, by decide⟩ ⟨by decide, by decide⟩ ⟨by decide, by decide⟩

/-- C5 counterexample: the claim says a candidate whose extractable body text
is shorter than 200 characters yields no record; but `parse_article` applies
no length threshold — when NewsPlease returns an article whose `maintext` is
the 11-character string `"short text!"`, a record is still produced. -/
theorem parse_article_short_text_record :
    parse_article (some ⟨some "T", some "short text!", none, []⟩)
        "http://x.com/a" ⟨"X", "biz"⟩ =
      some { title := some "T", text := some "short text!",
             url := "http://x.com/a", date := none, newspaper := "X",
             «section» := "biz", authors := [] } ∧
    "short text!".length = 11 := by
  exact ⟨rfl, rfl⟩

/-- C5 (amended): article extraction produces a record iff NewsPlease returns
a (truthy) article object; the code checks no minimum text-length threshold,
so short pages still yield records whenever the library returns an article. -/
theorem parse_article_isSome_iff (article : Option NewsArticle) (url : String)
    (meta : Meta) :
    (parse_article article url meta).isSome = article.isSome := by
  cases article <;> rfl

/-- C6 counterexample: the claim says a row is appended only when extraction
fully succeeds with all required field values (title, text, …) present; but
when NewsPlease returns a truthy article whose `title` and `maintext` are both
Python `None`, `parse_article` still yields a row — with empty title and text
cells. -/
theorem parse_article_row_with_empty_fields :
    parse_article (some ⟨none, none, none, []⟩) "http://x.com/empty"
        ⟨"X", "biz"⟩ =
      some { title := none, text := none, url := "http://x.com/empty",
             date := none, newspaper := "X", «section» := "biz",
             authors := [] } := by
  rfl

/-- C6 (amended): for every candidate, either nothing is written, or — when
NewsPlease returns an article — exactly one row is appended carrying all seven
columns (title, text, url, date, newspaper, section, authors); the row's
structure is always complete, but the title, text and date cells may be empty:
field values are not validated before writing. -/
theorem parse_article_none_or_complete (article : Option NewsArticle)
    (url : String) (meta : Meta) :
    parse_article article url meta = none ∨
    ∃ a, article = some a ∧
      parse_article article url meta =
        some { title := a.title, text := a.maintext, url := url,
               date := a.date_publish, newspaper := meta.newspaper,
               «section» := meta.«section», authors := a.authors } := by
  cases article with
  | none => exact Or.inl rfl
  | some a => exact Or.inr ⟨a, rfl, rfl⟩

/-- C8: the output is a tabular file whose fixed header is exactly
`title, text, url, date, newspaper, section, authors` — the field order of the
source's yielded dict coincides with the spec's header — with one serialized
row per extracted record, each row having one cell per header column, and the
`authors` field serialized as a comma-delimited list within its cell. -/
theorem csv_output_format (rows : List Row) :
    (csvFile rows).head? = some specHeader ∧
    rowFields = specHeader ∧
    (csvFile rows).length = rows.length + 1 ∧
    (csvFile rows).tail = rows.map serializeRow ∧
    ∀ r : Row, (serializeRow r).length = specHeader.length ∧
      (serializeRow r).getLast? = some (",".intercalate r.authors) := by
  refine ⟨rfl, rfl, by simp [csvFile], rfl, fun r => ⟨rfl, rfl⟩⟩

/-! ### Sorted-categories helper lemmas for `cluster_articles` -/

lemma mem_insertSorted {a s : String} {l : List String} :
    a ∈ insertSorted s l ↔ a = s ∨ a ∈ l := by
  induction l with
  | nil => simp [insertSorted]
  | cons t ts ih =>
    unfold insertSorted
    split_ifs with h
    · simp [List.mem_cons]
    · simp only [List.mem_cons, ih]
      tauto

lemma mem_sortStrings {a : String} {l : List String} :
    a ∈ sortStrings l ↔ a ∈ l := by
  induction l with
  | nil => simp [sortStrings]
  | cons s ss ih => simp [sortStrings, mem_insertSorted, ih]

lemma mem_categoriesOf {a : String} {l : List String} :
    a ∈ categoriesOf l ↔ a ∈ l := by
  simp [categoriesOf, mem_sortStrings, List.mem_dedup]

/-- Two values of a column receive equal categorical codes iff they are
equal. -/
lemma catCode_inj (l : List String) (a b : String) (ha : a ∈ l) (hb : b ∈ l) :
    (catCode (categoriesOf l) a = catCode (categoriesOf l) b) ↔ a = b :=
  List.indexOf_inj (mem_categoriesOf.2 ha) (mem_categoriesOf.2 hb)

/-- C9: `cluster_articles` is a partition by the pre-existing `section`
label, not a learned clustering — positionally, the output's `cluster_name`
column equals the input's `section` column; every output row's `cluster_name`
equals its own `section`; and two output rows carry the same numeric
`cluster` code iff they carry the same `section` label. -/
theorem cluster_articles_partitions_by_section
    (word_tokenize : String → List String) (stop_words : List String)
    (lemmatize : String → String) (rows : List InRow) :
    ((cluster_articles word_tokenize stop_words lemmatize rows).1.map
        (fun r => r.cluster_name)) = rows.map (fun r => r.«section») ∧
    (∀ r ∈ (cluster_articles word_tokenize stop_words lemmatize rows).1,
      r.cluster_name = r.«section») ∧
    (∀ r₁ ∈ (cluster_articles word_tokenize stop_words lemmatize rows).1,
      ∀ r₂ ∈ (cluster_articles word_tokenize stop_words lemmatize rows).1,
        (r₁.cluster = r₂.cluster ↔ r₁.«section» = r₂.«section»)) := by
  refine ⟨?_, ?_, ?_⟩
  · simp [cluster_articles, List.map_map, Function.comp]
  · intro r hr
    unfold cluster_articles at hr
    simp only [List.mem_map] at hr
    rcases hr with ⟨s, _, rfl⟩
    rfl
  · intro r₁ h₁ r₂ h₂
    unfold cluster_articles at h₁ h₂
    simp only [List.mem_map] at h₁ h₂
    rcases h₁ with ⟨s₁, hs₁, rfl⟩
    rcases h₂ with ⟨s₂, hs₂, rfl⟩
    exact catCode_inj _ _ _
      (List.mem_map_of_mem _ hs₁) (List.mem_map_of_mem _ hs₂)

/-- Witness for C9 at a concrete input frame with sections
`["biz", "arts", "biz"]` (categories sorted to `["arts", "biz"]`, so codes
are biz ↦ 1, arts ↦ 0): the first and second output rows have different codes
iff they have different section labels. -/
theorem cluster_articles_partitions_by_section_witness :
    (({ text := Cell.nan, «section» := "biz", processed_text := "",
        cluster := 1, cluster_name := "biz" } : ClusteredRow).cluster =
      ({ text := Cell.ofString "Hi", «section» := "arts",
         processed_text := "hi", cluster := 0,
         cluster_name := "arts" } : ClusteredRow).cluster ↔
      ("biz" : String) = "arts") :=
  (cluster_articles_partitions_by_section (fun s => [s]) [] (fun w => w)
      [⟨Cell.nan, "biz"⟩, ⟨Cell.ofString "Hi", "arts"⟩,
       ⟨Cell.nan, "biz"⟩]).2.2
    _ (by decide) _ (by decide)

/-- C10: `preprocess_text` is total over the cells of the text column — every
non-string cell (a missing/NaN value, a number) yields the empty string
rather than an error, and every string cell yields the space-joined result of
the lowercase/strip-punctuation/tokenize/filter/lemmatize pipeline. -/
theorem preprocess_text_total (word_tokenize : String → List String)
    (stop_words : List String) (lemmatize : String → String) (c : Cell) :
    (c.isStr = false →
      preprocess_text word_tokenize stop_words lemmatize c = "") ∧
    (∀ s, c = Cell.ofString s →
      preprocess_text word_tokenize stop_words lemmatize c =
        " ".intercalate
          (((word_tokenize (removePunctuation (lowerString s))).filter
              (fun word => word ∉ stop_words)).map lemmatize)) := by
  cases c with
  | ofString s =>
    refine ⟨fun h => by simp [Cell.isStr] at h, ?_⟩
    rintro t ht
    injection ht with ht
    subst ht
    rfl
  | nan => exact ⟨fun _ => rfl, fun s h => by cases h⟩
  | ofInt n => exact ⟨fun _ => rfl, fun s h => by cases h⟩

/-- Witness for C10 at concrete cells: a NaN cell maps to `""`, and the
string cell `"Hi!"` maps through the pipeline (with a whitespace tokenizer,
no stopwords and the identity lemmatizer) to `"hi"`. -/
theorem preprocess_text_total_witness :
    preprocess_text (fun s => [s]) [] (fun w => w) Cell.nan = "" ∧
    preprocess_text (fun s => [s]) [] (fun w => w) (Cell.ofString "Hi!") =
      "hi" := by
  constructor
  · exact (preprocess_text_total (fun s => [s]) [] (fun w => w) Cell.nan).1 rfl
  · rw [(preprocess_text_total (fun s => [s]) [] (fun w => w)
      (Cell.ofString "Hi!")).2 "Hi!" rfl]
    decide

end NewsApp
